import Mathlib

/-!
Verification of the memoizing cache of `pyutil/decorators.py`.

The repository builds, per configuration, a dict subclass `Cache` (from the
template in `construct_cache_obj_definition`, lines 164-224) and a wrapper
`memo_func` (from the template in `construct_cache_func_definition`,
lines 121-162).  This file embeds both, specialised exactly as the templates
splice their fragments, and proves or refutes the frozen claims about them.

Conventions of the embedding:
* Python values are `V := Option Int`; `none` models Python's `None`.
* `sys.getsizeof` is external to the repository, so it enters the model as
  parameters: `szV v` is the size of a bare value `v`, and `szT exp v` is the
  size of the tuple `(expiration, value)` that the class stores when an
  `until` function is configured (line 190 stores `(expiration, value)`,
  line 216 adds `sys.getsizeof(value)` of the bare value, and `__delitem__`
  at line 205 subtracts `sys.getsizeof` of whatever object is stored).
* Timestamps (`time.time()` and the result of `expire_func`) are `Nat`
  parameters `now` and `exp` of each operation.
* Every dict slot is kept as `(key, (expiration, value))`; when no `until`
  function is configured the expiration component is simply never consulted,
  mirroring that the class then stores the bare value (no information is
  added or lost because `storedSize` and `getitem` branch on `cfg.hasUntil`).
* A `KeyError` that escapes a mutating operation (possible only through the
  `until_check` at line 188, reached from `remove_old_key`'s
  `OrderedDict.pop`) is modelled by the `err` flag of `SetRes`.  The
  eviction loops use `OrderedDict.popitem`, which bypasses the subclass's
  `__getitem__` and `__delitem__` (Python 2.7 `popitem` calls
  `dict.pop(self, key)` directly), so evictions never raise, never check the
  TTL, and never decrement `current_size`.
-/

namespace PyUtil

/-- A stored Python value; `none` models Python's `None`. -/
abbrev V := Option Int

/-- The configuration fragments spliced into `construct_cache_obj_definition`
(lines 164-194): `max_size`, `max_bytes` (0 = unconfigured, matching Python
truthiness), whether an `until` expiration function is configured, and
`ignore_nulls`. -/
structure CacheCfg where
  max_size : Nat
  max_bytes : Nat
  hasUntil : Bool
  ignore_nulls : Bool
deriving DecidableEq

/-- The generated `Cache` object: the dict contents (insertion order, oldest
first, as kept by `collections.OrderedDict`) and the `current_size` counter
(line 198). -/
structure Cache (K : Type) where
  entries : List (K × Nat × V)
  current_size : Int
deriving DecidableEq

def Cache.empty {K : Type} : Cache K := ⟨[], 0⟩

/-- Python dict lookup on the slot list: the unique (first) entry for a key. -/
def lookup {K : Type} [DecidableEq K] : List (K × Nat × V) → K → Option (Nat × V)
  | [], _ => none
  | e :: es, k => if e.1 = k then some e.2 else lookup es k

/-- Python dict deletion on the slot list: drop the (first) entry for a key. -/
def removeKey {K : Type} [DecidableEq K] : List (K × Nat × V) → K → List (K × Nat × V)
  | [], _ => []
  | e :: es, k => if e.1 = k then es else e :: removeKey es k

/-- Base-class `__setitem__` (`dict` / `OrderedDict`): an existing key keeps
its position and gets the new value; a new key is appended at the end. -/
def superSet {K : Type} [DecidableEq K] :
    List (K × Nat × V) → K → Nat → V → List (K × Nat × V)
  | [], k, exp, v => [(k, exp, v)]
  | e :: es, k, exp, v => if e.1 = k then (k, exp, v) :: es else e :: superSet es k exp v

/-- Size of the object the class actually stores: with `until` configured the
stored object is the tuple `(expiration, value)` (line 190), otherwise the
bare value (line 194). -/
def storedSize (cfg : CacheCfg) (szV : V → Int) (szT : Nat → V → Int)
    (exp : Nat) (v : V) : Int :=
  if cfg.hasUntil then szT exp v else szV v

/-- `Cache.__delitem__` (lines 203-206): read the stored object, subtract its
`sys.getsizeof`, delete the slot.  Python raises `KeyError` on an absent key;
every call site modelled here uses a present key, where the behaviours
coincide, so the absent case is a no-op. -/
def delitem {K : Type} [DecidableEq K] (cfg : CacheCfg) (szV : V → Int)
    (szT : Nat → V → Int) (c : Cache K) (k : K) : Cache K :=
  match lookup c.entries k with
  | some (exp, v) =>
      ⟨removeKey c.entries k, c.current_size - storedSize cfg szV szT exp v⟩
  | none => c

/-- Outcome of `Cache.__getitem__`: a value, or a `KeyError`. -/
inductive GetRes where
  | hit (v : V)
  | keyError
deriving DecidableEq

/-- `Cache.__getitem__` (lines 208-211): absent key raises `KeyError`; with
`until` configured, a stored `(expiration, value)` with
`expiration < time.time()` is deleted and `KeyError` raised (`until_check`,
line 188); otherwise the value is returned. -/
def getitem {K : Type} [DecidableEq K] (cfg : CacheCfg) (szV : V → Int)
    (szT : Nat → V → Int) (now : Nat) (c : Cache K) (k : K) : GetRes × Cache K :=
  match lookup c.entries k with
  | none => (.keyError, c)
  | some (exp, v) =>
      if cfg.hasUntil ∧ exp < now then (.keyError, delitem cfg szV szT c k)
      else (.hit v, c)

/-- Result of a mutating operation: `err` records a `KeyError` escaping it
(only possible when `until` is configured), plus the resulting cache. -/
structure SetRes (K : Type) where
  err : Bool
  cache : Cache K
deriving DecidableEq

/-- `OrderedDict.popitem(last=False)` as invoked by the eviction filters
(lines 173 and 178).  Python 2.7's `OrderedDict.popitem` unlinks the oldest
key and removes it with `dict.pop(self, key)` directly, bypassing the
subclass's `__getitem__` and `__delitem__` overrides entirely: no TTL check,
no `KeyError` from expiry, and -- crucially -- no `current_size` change.
(Contrast `OrderedDict.pop`, used by `remove_old_key`, which reads via
`self[key]` and deletes via `del self[key]`, hence through the overrides.)
On an empty dict `popitem` raises `KeyError('dictionary is empty')`; both
loops guard on `self`, so that branch is never reached from them and is
modelled as a no-op. -/
def popFirst {K : Type} (c : Cache K) : Cache K :=
  match c.entries with
  | [] => c
  | _ :: tl => ⟨tl, c.current_size⟩

/-- The `byte_filter` loop (line 173):
`while self and self.current_size > self.max_bytes: self.popitem(False)`.
The fuel argument is always instantiated with the current number of entries,
which bounds the number of iterations since each pop removes one entry.
Since `popitem` never lowers `current_size`, once the counter exceeds the
bound this loop runs until the dict is empty. -/
def evictBytes {K : Type} [DecidableEq K] (cfg : CacheCfg) : Nat → Cache K → Cache K
  | 0, c => c
  | fuel + 1, c =>
      if c.entries ≠ [] ∧ (cfg.max_bytes : Int) < c.current_size then
        evictBytes cfg fuel (popFirst c)
      else c

/-- The `size_filter` loop (line 178):
`while self and len(self) > self.max_size: self.popitem(False)`. -/
def evictSize {K : Type} [DecidableEq K] (cfg : CacheCfg) : Nat → Cache K → Cache K
  | 0, c => c
  | fuel + 1, c =>
      if c.entries ≠ [] ∧ cfg.max_size < c.entries.length then
        evictSize cfg fuel (popFirst c)
      else c

/-- The `remove_old_key` fragment (line 167), spliced in only when a capacity
or byte bound is configured: `if key in self: self.pop(key)`.
`OrderedDict.pop` reads through our `__getitem__` -- an expired old entry is
deleted there and the `KeyError` escapes -- and then deletes through our
`__delitem__`. -/
def removeOldKey {K : Type} [DecidableEq K] (cfg : CacheCfg) (szV : V → Int)
    (szT : Nat → V → Int) (now : Nat) (c : Cache K) (k : K) : SetRes K :=
  if (cfg.max_size ≠ 0 ∨ cfg.max_bytes ≠ 0) ∧ (lookup c.entries k).isSome then
    match getitem cfg szV szT now c k with
    | (.keyError, cErr) => ⟨true, cErr⟩
    | (.hit _, _) => ⟨false, delitem cfg szV szT c k⟩
  else ⟨false, c⟩

/-- The store statement of line 216 guarded by `null_filter` (line 183):
`if value != None:` (when `ignore_nulls`) the base-class store of
`(expiration, value)` -- with `until` -- or of the bare value, followed on
the same line by `self.current_size += sys.getsizeof(value)` on the bare
value; both or neither run. -/
def storeStep {K : Type} [DecidableEq K] (cfg : CacheCfg) (szV : V → Int)
    (exp : Nat) (c : Cache K) (k : K) (v : V) : Cache K :=
  if cfg.ignore_nulls ∧ v = none then c
  else ⟨superSet c.entries k exp v, c.current_size + szV v⟩

/-- `Cache.__setitem__` (lines 213-218): `remove_old_key`, then `until_call`
(line 189: `expiration = self.expire_func()`, whose result is the `exp`
argument here), then the guarded store, then `byte_filter` and `size_filter`
(lines 217-218) when configured.  A `KeyError` escaping `remove_old_key`
(possible only with `until` configured) aborts the rest and propagates; the
filter loops themselves cannot raise. -/
def setitem {K : Type} [DecidableEq K] (cfg : CacheCfg) (szV : V → Int)
    (szT : Nat → V → Int) (exp now : Nat) (c : Cache K) (k : K) (v : V) : SetRes K :=
  let r1 := removeOldKey cfg szV szT now c k
  if r1.err then r1 else
  let c2 := storeStep cfg szV exp r1.cache k v
  let c3 := if cfg.max_bytes ≠ 0 then evictBytes cfg c2.entries.length c2 else c2
  ⟨false, if cfg.max_size ≠ 0 then evictSize cfg c3.entries.length c3 else c3⟩

/-- `cache.clear()` as invoked by `MemoizeResults.clear` (line 53): the
generated class defines no `clear`, so the inherited `dict.clear` runs: it
empties the dict and touches nothing else -- in particular `current_size`
keeps its value. -/
def clearCache {K : Type} (c : Cache K) : Cache K :=
  ⟨[], c.current_size⟩

/-- The per-function `collections.Counter` (line 249) under its two keys
`call` and `miss` (lines 146 and 152). -/
structure Stats where
  call : Nat
  miss : Nat
deriving DecidableEq

/-- Outcome of one call of the generated `memo_func`: a value, an error `e`
raised by the wrapped computation (propagating unchanged), or a `KeyError`
escaping the store statement (possible only with `until` configured). -/
inductive CallRes (ε : Type) where
  | ok (v : V)
  | funcErr (e : ε)
  | keyErr
deriving DecidableEq

/-- Shared state of a (globally scoped) memoized function: its stats counter
and its cache object. -/
structure MemoState (K : Type) where
  stats : Stats
  cache : Cache K
deriving DecidableEq

/-- One call's result: outcome, post-state, and whether the wrapped
computation was invoked. -/
structure CallOut (K ε : Type) where
  res : CallRes ε
  state : MemoState K
  invoked : Bool
deriving DecidableEq

/-- The generated `memo_func` (template lines 141-157), global scope, with
the key already built (`key = {setup_key}` is `KeyBuilder`, modelled
separately as `buildKey`):

    stats['call'] += 1
    try:
        return cache[key]
    except KeyError:
        stats['miss'] += 1
        value = cache[key] = func(*args, **kwargs)
        return value

The wrapped computation is `func : K → Except ε V`; invoking it is recorded
in the `invoked` flag.  A `KeyError` raised by the store statement inside the
`except` block is not caught and propagates to the caller. -/
def memoCall {K ε : Type} [DecidableEq K] (cfg : CacheCfg) (szV : V → Int)
    (szT : Nat → V → Int) (func : K → Except ε V) (exp now : Nat)
    (s : MemoState K) (k : K) : CallOut K ε :=
  let stats1 : Stats := ⟨s.stats.call + 1, s.stats.miss⟩
  match getitem cfg szV szT now s.cache k with
  | (.hit v, cHit) => ⟨.ok v, ⟨stats1, cHit⟩, false⟩
  | (.keyError, cMiss) =>
      let stats2 : Stats := ⟨stats1.call, stats1.miss + 1⟩
      match func k with
      | .error e => ⟨.funcErr e, ⟨stats2, cMiss⟩, true⟩
      | .ok v =>
          let r := setitem cfg szV szT exp now cMiss k v
          ⟨if r.err then .keyErr else .ok v, ⟨stats2, r.cache⟩, true⟩

/-- A sequence of raw cache writes `(exp, now, key, value)` folded through
`setitem`; a `KeyError` escaping one write aborts the rest (it would
propagate out of the caller). -/
def runWritesFrom {K : Type} [DecidableEq K] (cfg : CacheCfg) (szV : V → Int)
    (szT : Nat → V → Int) : SetRes K → List (Nat × Nat × K × V) → SetRes K
  | r, [] => r
  | r, w :: ws =>
      runWritesFrom cfg szV szT
        (if r.err then r else setitem cfg szV szT w.1 w.2.1 r.cache w.2.2.1 w.2.2.2) ws

/-- Writes applied to the freshly created cache (`create_cache_obj` returns
`Cache()`: empty dict, `current_size = 0`). -/
def runWrites {K : Type} [DecidableEq K] (cfg : CacheCfg) (szV : V → Int)
    (szT : Nat → V → Int) (ws : List (Nat × Nat × K × V)) : SetRes K :=
  runWritesFrom cfg szV szT ⟨false, Cache.empty⟩ ws

/-- Keys of the slot list, in insertion order. -/
def keysOf {K : Type} (l : List (K × Nat × V)) : List K :=
  l.map (fun e => e.1)

/-- Sum of `sys.getsizeof` of the bare stored values over the live slots. -/
def sizeSum {K : Type} (szV : V → Int) (l : List (K × Nat × V)) : Int :=
  (l.map (fun e => szV e.2.2)).sum

/-- The `memoize_default_options` of line 267 restricted to the cache-shaping
options: everything off / unbounded. -/
def defaultCfg : CacheCfg := ⟨0, 0, false, false⟩

/-! ## Per-owner scope (`obj = True`)

With `obj = True` the generated `memo_func` (lines 134-136) first attaches a
fresh cache to the first positional argument if it has none
(`if not hasattr(args[0], "__memoize_cache__"): setattr(args[0],
"__memoize_cache__", gen_cache())`) and then uses that attached cache.  The
stats counter stays the single one captured in the closure (line 249).  The
key is still built from the full argument tuple, whose first component is the
owner, so we key the owner-local cache by `(owner, arg)`. -/

/-- The `__memoize_cache__` attributes: which owner instances carry an
attached cache, and its contents. -/
def getOwnerCache (os : List (Nat × Cache (Nat × Nat))) (o : Nat) :
    Option (Cache (Nat × Nat)) :=
  match os with
  | [] => none
  | e :: es => if e.1 = o then some e.2 else getOwnerCache es o

/-- `setattr(owner, "__memoize_cache__", cache)`: replace an existing
attribute or attach a new one. -/
def setOwnerCache (os : List (Nat × Cache (Nat × Nat))) (o : Nat)
    (c : Cache (Nat × Nat)) : List (Nat × Cache (Nat × Nat)) :=
  match os with
  | [] => [(o, c)]
  | e :: es => if e.1 = o then (o, c) :: es else e :: setOwnerCache es o c

/-- State of an `obj = True` memoized function: the owner-attached caches and
the single shared stats counter. -/
structure ObjState where
  owners : List (Nat × Cache (Nat × Nat))
  stats : Stats
deriving DecidableEq

/-- One obj-scoped call's result. -/
structure ObjCallOut where
  res : CallRes Unit
  state : ObjState
  invoked : Bool
deriving DecidableEq

/-- The generated `memo_func` with `obj = True` (fragments of lines 135-136
spliced into the template of lines 141-157): lazily attach a fresh cache
(`gen_cache` of line 261 builds it with `create_cache_obj`, i.e. empty) to
the owner, then run the get-or-compute sequence against the owner's cache.
The functional model writes the possibly mutated cache back to the owner,
which Python does implicitly by mutating the attached object in place. -/
def memoCallObj (cfg : CacheCfg) (szV : V → Int) (szT : Nat → V → Int)
    (func : Nat → Nat → Except Unit V) (exp now : Nat) (s : ObjState)
    (o a : Nat) : ObjCallOut :=
  let owners1 :=
    match getOwnerCache s.owners o with
    | some _ => s.owners
    | none => setOwnerCache s.owners o Cache.empty
  let cache := (getOwnerCache owners1 o).getD Cache.empty
  let stats1 : Stats := ⟨s.stats.call + 1, s.stats.miss⟩
  let key : Nat × Nat := (o, a)
  match getitem cfg szV szT now cache key with
  | (.hit v, cHit) => ⟨.ok v, ⟨setOwnerCache owners1 o cHit, stats1⟩, false⟩
  | (.keyError, cMiss) =>
      let stats2 : Stats := ⟨stats1.call, stats1.miss + 1⟩
      match func o a with
      | .error e => ⟨.funcErr e, ⟨setOwnerCache owners1 o cMiss, stats2⟩, true⟩
      | .ok v =>
          let r := setitem cfg szV szT exp now cMiss key v
          ⟨if r.err then .keyErr else .ok v,
           ⟨setOwnerCache owners1 o r.cache, stats2⟩, true⟩

/-! ## The process-wide registry and bulk clear

`create_cache_func` (lines 247-249) registers, at decoration time, exactly
one cache object per memoized function in `MemoizeResults.caches` -- also for
`obj = True` functions, whose registered cache the wrapper then shadows with
the owner-attached one.  The caches built later by `gen_cache` (line 261) are
only attached to owner instances and never registered.
`MemoizeResults.clear` (lines 46-53) calls `cache.clear()` on every
registered cache and touches nothing else. -/

/-- Process-wide state: the registered caches (`MemoizeResults.caches`
values) and the state of an `obj = True` memoized function (owner-attached
caches plus its shared stats counter, the latter in `MemoizeResults.stats`). -/
structure World where
  registry : List (Cache (Nat × Nat))
  objState : ObjState
deriving DecidableEq

/-- `MemoizeResults.clear()` (stats untouched, its `stats = False` default):
`for cache in cls.caches.values(): cache.clear()`. -/
def clearAll (w : World) : World :=
  ⟨w.registry.map clearCache, w.objState⟩

/-! ## KeyBuilder

`construct_cache_func_definition` (lines 129-132): with `disable_kw` the key
is the bare positional tuple `args`; otherwise it is
`(args, tuple(sorted(izip(kwargs.iteritems()))))`.  `izip` over the single
iterable of `(name, value)` pairs wraps each pair in a 1-tuple; since
`x ↦ (x,)` is injective and 1-tuples compare exactly as their contents, keys
built from the wrapped pairs are equal precisely when the keys built from the
bare sorted pairs are, so the model sorts the bare pairs.  Named arguments
are modelled as `(name, value) : Nat × Int` pairs; Python compares such
tuples lexicographically, and its `sorted` is a stable sort, whose result on
a total antisymmetric order any correct sort reproduces. -/

/-- Lexicographic order on `(name, value)` pairs, as Python compares them. -/
def kvLe (a b : Nat × Int) : Prop :=
  a.1 < b.1 ∨ (a.1 = b.1 ∧ a.2 ≤ b.2)

instance : DecidableRel kvLe := fun a b => by
  unfold kvLe; infer_instance

instance : IsTotal (Nat × Int) kvLe where
  total a b := by
    rcases Nat.lt_trichotomy a.1 b.1 with h | h | h
    · exact Or.inl (Or.inl h)
    · rcases le_total a.2 b.2 with h2 | h2
      · exact Or.inl (Or.inr ⟨h, h2⟩)
      · exact Or.inr (Or.inr ⟨h.symm, h2⟩)
    · exact Or.inr (Or.inl h)

instance : IsTrans (Nat × Int) kvLe where
  trans a b c hab hbc := by
    rcases hab with h1 | ⟨h1, h2⟩ <;> rcases hbc with h3 | ⟨h3, h4⟩
    · exact Or.inl (h1.trans h3)
    · exact Or.inl (h3 ▸ h1)
    · exact Or.inl (h1 ▸ h3)
    · exact Or.inr ⟨h1.trans h3, h2.trans h4⟩

instance : IsAntisymm (Nat × Int) kvLe where
  antisymm a b hab hba := by
    rcases hab with h1 | ⟨h1, h2⟩ <;> rcases hba with h3 | ⟨h3, h4⟩
    · exact absurd (h1.trans h3) (lt_irrefl _)
    · exact absurd h1 (h3 ▸ lt_irrefl _)
    · exact absurd h3 (h1 ▸ lt_irrefl _)
    · exact Prod.ext h1 (le_antisymm h2 h4)

/-- A cache key as `setup_key` builds it. -/
inductive MemoKey where
  | plain (args : List Int)
  | withKw (args : List Int) (kw : List (Nat × Int))
deriving DecidableEq

/-- `setup_key` (lines 129-132): `args` alone under `disable_kw`, otherwise
the pair of `args` and the name-sorted named arguments. -/
def buildKey (disable_kw : Bool) (args : List Int) (kwargs : List (Nat × Int)) :
    MemoKey :=
  if disable_kw then .plain args
  else .withKw args (List.insertionSort kvLe kwargs)

/-- What the bookkeeping actually guarantees without a TTL function (and
with nonnegative size estimates): dict keys are unique, and `current_size`
is at least the sum of the size estimates of the live values.  Equality can
fail: evictions go through `popitem`, which bypasses `__delitem__` and never
decrements the counter, and a rewrite without a configured bound adds the
new value's size without subtracting the old one's. -/
def SizeLeCache {K : Type} (szV : V → Int) (c : Cache K) : Prop :=
  (keysOf c.entries).Nodup ∧ sizeSum szV c.entries ≤ c.current_size

/-- Invariant carried through a write sequence: no escaped `KeyError` and the
bookkeeping of `SizeLeCache`. -/
def SizeLeRes {K : Type} (szV : V → Int) (r : SetRes K) : Prop :=
  r.err = false ∧ SizeLeCache szV r.cache

/-! ## Concrete instantiations used to exercise the model

`sys.getsizeof` in CPython 2 returns a positive object-header-plus-payload
size; a large value (e.g. a long string) is bigger than the fixed-size tuple
wrapping it, so a constant 8 for bare values and a constant 5 for the
`(expiration, value)` tuple are realistic shapes for concrete runs. -/

def szConst8 : V → Int := fun _ => 8

def szTupConst5 : Nat → V → Int := fun _ _ => 5

/-- A computation returning Python `None` on every input. -/
def funcNone : Nat → Except Unit V := fun _ => .ok none

/-- A computation returning its key as the value. -/
def funcIdVal : Nat → Except Unit V := fun k => .ok (some (Int.ofNat k))

/-- A computation raising on every input. -/
def funcFail : Nat → Except Unit V := fun _ => .error ()

/-- Fresh wrapper state: zeroed counter, freshly created cache. -/
def initState : MemoState Nat := ⟨⟨0, 0⟩, Cache.empty⟩

/-- Capacity bound `max_entries = 2`, nothing else configured. -/
def twoEntryCfg : CacheCfg := ⟨2, 0, false, false⟩

/-- A two-argument computation (owner, argument) for the per-owner scope. -/
def funcAdd : Nat → Nat → Except Unit V := fun o a => .ok (some (Int.ofNat (o + a)))

/-- A concrete process-wide state: one registered cache holding an entry, and
one owner instance (5) carrying an attached cache holding an entry for
argument 7. -/
def exampleWorld : World :=
  ⟨[⟨[((1, 2), 0, some 3)], 8⟩],
   ⟨[(5, ⟨[((5, 7), 0, some 4)], 8⟩)], ⟨3, 1⟩⟩⟩

/-- The concrete scenario calls: keys 0 (A), 1 (B), 2 (C), then 0 (A) again
through the wrapper against a fresh `max_size = 2` cache. -/
def scenarioCall1 : CallOut Nat Unit :=
  memoCall twoEntryCfg szConst8 szTupConst5 funcIdVal 0 0 initState 0

def scenarioCall2 : CallOut Nat Unit :=
  memoCall twoEntryCfg szConst8 szTupConst5 funcIdVal 0 0 scenarioCall1.state 1

def scenarioCall3 : CallOut Nat Unit :=
  memoCall twoEntryCfg szConst8 szTupConst5 funcIdVal 0 0 scenarioCall2.state 2

def scenarioCall4 : CallOut Nat Unit :=
  memoCall twoEntryCfg szConst8 szTupConst5 funcIdVal 0 0 scenarioCall3.state 0

/-! ## Lemmas about the slot-list primitives -/

theorem keysOf_nil {K : Type} : keysOf ([] : List (K × Nat × V)) = [] := rfl

theorem keysOf_cons {K : Type} (e : K × Nat × V) (es : List (K × Nat × V)) :
    keysOf (e :: es) = e.1 :: keysOf es := rfl

theorem lookup_eq_none_iff {K : Type} [DecidableEq K]
    (l : List (K × Nat × V)) (k : K) : lookup l k = none ↔ k ∉ keysOf l := by
  induction l with
  | nil => simp [lookup, keysOf]
  | cons e es ih =>
      by_cases h : e.1 = k
      · simp [lookup, h, keysOf_cons]
      · simp [lookup, h, keysOf_cons, ih, Ne.symm h]

theorem removeKey_of_lookup_none {K : Type} [DecidableEq K]
    {l : List (K × Nat × V)} {k : K} (h : lookup l k = none) :
    removeKey l k = l := by
  induction l with
  | nil => rfl
  | cons e es ih =>
      by_cases he : e.1 = k
      · simp [lookup, he] at h
      · simp only [lookup, he, if_false] at h
        simp [removeKey, he, ih h]

theorem keysOf_removeKey_sublist {K : Type} [DecidableEq K]
    (l : List (K × Nat × V)) (k : K) :
    (keysOf (removeKey l k)).Sublist (keysOf l) := by
  induction l with
  | nil => simp [removeKey]
  | cons e es ih =>
      by_cases he : e.1 = k
      · simp only [removeKey, he, if_true, keysOf_cons]
        exact (List.sublist_cons_self _ _)
      · simp only [removeKey, he, if_false, keysOf_cons]
        exact ih.cons₂ _

theorem nodup_keysOf_removeKey {K : Type} [DecidableEq K]
    {l : List (K × Nat × V)} (k : K) (h : (keysOf l).Nodup) :
    (keysOf (removeKey l k)).Nodup :=
  h.sublist (keysOf_removeKey_sublist l k)

theorem lookup_removeKey_self {K : Type} [DecidableEq K]
    {l : List (K × Nat × V)} {k : K} (h : (keysOf l).Nodup) :
    lookup (removeKey l k) k = none := by
  induction l with
  | nil => rfl
  | cons e es ih =>
      rw [keysOf_cons, List.nodup_cons] at h
      by_cases he : e.1 = k
      · simp only [removeKey, he, if_true]
        rw [lookup_eq_none_iff]
        exact he ▸ h.1
      · simp [removeKey, lookup, he, ih h.2]

theorem sizeSum_removeKey {K : Type} [DecidableEq K] (szV : V → Int)
    {l : List (K × Nat × V)} {k : K} {exp : Nat} {v : V}
    (h : lookup l k = some (exp, v)) :
    sizeSum szV (removeKey l k) = sizeSum szV l - szV v := by
  induction l with
  | nil => simp [lookup] at h
  | cons e es ih =>
      by_cases he : e.1 = k
      · simp only [lookup, he, if_true, Option.some_inj] at h
        simp [removeKey, he, sizeSum, h]
      · simp only [lookup, he, if_false] at h
        simp only [removeKey, he, if_false]
        simp [sizeSum] at ih ⊢
        rw [ih h]
        ring

theorem superSet_of_lookup_none {K : Type} [DecidableEq K]
    {l : List (K × Nat × V)} {k : K} (exp : Nat) (v : V)
    (h : lookup l k = none) :
    superSet l k exp v = l ++ [(k, exp, v)] := by
  induction l with
  | nil => rfl
  | cons e es ih =>
      by_cases he : e.1 = k
      · simp [lookup, he] at h
      · simp only [lookup, he, if_false] at h
        simp [superSet, he, ih h]

theorem sizeSum_append_single {K : Type} (szV : V → Int)
    (l : List (K × Nat × V)) (k : K) (exp : Nat) (v : V) :
    sizeSum szV (l ++ [(k, exp, v)]) = sizeSum szV l + szV v := by
  simp [sizeSum]

theorem keysOf_superSet_present {K : Type} [DecidableEq K]
    {l : List (K × Nat × V)} {k : K} (exp : Nat) (v : V) {e0 : Nat} {v0 : V}
    (h : lookup l k = some (e0, v0)) :
    keysOf (superSet l k exp v) = keysOf l := by
  induction l with
  | nil => simp [lookup] at h
  | cons e es ih =>
      by_cases he : e.1 = k
      · simp [superSet, he, keysOf_cons]
      · simp only [lookup, he, if_false] at h
        simp [superSet, he, keysOf_cons, ih h]

theorem sizeSum_superSet_present {K : Type} [DecidableEq K] (szV : V → Int)
    {l : List (K × Nat × V)} {k : K} (exp : Nat) (v : V) {e0 : Nat} {v0 : V}
    (h : lookup l k = some (e0, v0)) :
    sizeSum szV (superSet l k exp v) = sizeSum szV l - szV v0 + szV v := by
  induction l with
  | nil => simp [lookup] at h
  | cons e es ih =>
      by_cases he : e.1 = k
      · simp only [lookup, he, if_true, Option.some_inj] at h
        have h2 : e.2.2 = v0 := by rw [h]
        simp only [superSet, he, if_true]
        simp [sizeSum, h2]
        ring
      · simp only [lookup, he, if_false] at h
        simp only [superSet, he, if_false]
        simp [sizeSum] at ih ⊢
        rw [ih h]
        ring

theorem nodup_keysOf_append_single {K : Type} [DecidableEq K]
    {l : List (K × Nat × V)} {k : K} (exp : Nat) (v : V)
    (hnd : (keysOf l).Nodup) (h : lookup l k = none) :
    (keysOf (l ++ [(k, exp, v)])).Nodup := by
  have hk : k ∉ keysOf l := (lookup_eq_none_iff l k).mp h
  simp [keysOf] at hnd hk ⊢
  exact List.Nodup.append hnd (List.nodup_singleton k)
    (by simpa [List.disjoint_singleton] using hk)

/-! ## Lemmas about the cache operations without a configured `until` -/

theorem getitem_lookup_none {K : Type} [DecidableEq K] (cfg : CacheCfg)
    (szV : V → Int) (szT : Nat → V → Int) (now : Nat) {c : Cache K} {k : K}
    (h : lookup c.entries k = none) :
    getitem cfg szV szT now c k = (.keyError, c) := by
  simp [getitem, h]

theorem getitem_no_until_some {K : Type} [DecidableEq K] {cfg : CacheCfg}
    (szV : V → Int) (szT : Nat → V → Int) (now : Nat) {c : Cache K} {k : K}
    {exp : Nat} {v : V} (hu : cfg.hasUntil = false)
    (h : lookup c.entries k = some (exp, v)) :
    getitem cfg szV szT now c k = (.hit v, c) := by
  simp [getitem, h, hu]

theorem delitem_entries {K : Type} [DecidableEq K] (cfg : CacheCfg)
    (szV : V → Int) (szT : Nat → V → Int) {c : Cache K} {k : K}
    {exp : Nat} {v : V} (h : lookup c.entries k = some (exp, v)) :
    delitem cfg szV szT c k =
      ⟨removeKey c.entries k, c.current_size - storedSize cfg szV szT exp v⟩ := by
  simp [delitem, h]

theorem delitem_sizeLe {K : Type} [DecidableEq K] {cfg : CacheCfg}
    {szV : V → Int} (szT : Nat → V → Int) {c : Cache K} (k : K)
    (hu : cfg.hasUntil = false) (hg : SizeLeCache szV c) :
    SizeLeCache szV (delitem cfg szV szT c k) := by
  rcases hg with ⟨hnd, hsz⟩
  unfold delitem
  cases h : lookup c.entries k with
  | none => exact ⟨hnd, hsz⟩
  | some p =>
      obtain ⟨exp, v⟩ := p
      refine ⟨nodup_keysOf_removeKey k hnd, ?_⟩
      rw [sizeSum_removeKey szV h]
      simp only [storedSize, hu, Bool.false_eq_true, if_false]
      exact sub_le_sub_right hsz _

theorem popFirst_cons {K : Type} {c : Cache K} {e : K × Nat × V}
    {tl : List (K × Nat × V)} (hc : c.entries = e :: tl) :
    popFirst c = ⟨tl, c.current_size⟩ := by
  unfold popFirst
  rw [hc]

theorem popFirst_sizeLe {K : Type} {szV : V → Int} {c : Cache K}
    (hnn : ∀ w : V, 0 ≤ szV w) (hg : SizeLeCache szV c) :
    SizeLeCache szV (popFirst c) := by
  rcases hg with ⟨hnd, hsz⟩
  unfold popFirst
  cases hc : c.entries with
  | nil => exact ⟨hnd, hsz⟩
  | cons e tl =>
      rw [hc, keysOf_cons, List.nodup_cons] at hnd
      refine ⟨hnd.2, ?_⟩
      rw [hc] at hsz
      have hhead : sizeSum szV (e :: tl) = szV e.2.2 + sizeSum szV tl := by
        simp [sizeSum]
      have := hnn e.2.2
      show sizeSum szV tl ≤ c.current_size
      omega

theorem evictBytes_sizeLe {K : Type} [DecidableEq K] {cfg : CacheCfg} {szV : V → Int}
    (hnn : ∀ w : V, 0 ≤ szV w) :
    ∀ (fuel : Nat) (c : Cache K), SizeLeCache szV c →
      SizeLeCache szV (evictBytes cfg fuel c) := by
  intro fuel
  induction fuel with
  | zero => intro c hg; exact hg
  | succ n ih =>
      intro c hg
      unfold evictBytes
      by_cases hcond : c.entries ≠ [] ∧ (cfg.max_bytes : Int) < c.current_size
      · rw [if_pos hcond]
        exact ih _ (popFirst_sizeLe hnn hg)
      · rw [if_neg hcond]
        exact hg

theorem evictSize_sizeLe {K : Type} [DecidableEq K] {cfg : CacheCfg} {szV : V → Int}
    (hnn : ∀ w : V, 0 ≤ szV w) :
    ∀ (fuel : Nat) (c : Cache K), SizeLeCache szV c →
      SizeLeCache szV (evictSize cfg fuel c) := by
  intro fuel
  induction fuel with
  | zero => intro c hg; exact hg
  | succ n ih =>
      intro c hg
      unfold evictSize
      by_cases hcond : c.entries ≠ [] ∧ cfg.max_size < c.entries.length
      · rw [if_pos hcond]
        exact ih _ (popFirst_sizeLe hnn hg)
      · rw [if_neg hcond]
        exact hg

theorem delitem_entries_eq_removeKey {K : Type} [DecidableEq K]
    (cfg : CacheCfg) (szV : V → Int) (szT : Nat → V → Int)
    (c : Cache K) (k : K) :
    (delitem cfg szV szT c k).entries = removeKey c.entries k := by
  unfold delitem
  cases h : lookup c.entries k with
  | none => exact (removeKey_of_lookup_none h).symm
  | some p => obtain ⟨exp, v⟩ := p; rfl

theorem removeOldKey_no_until {K : Type} [DecidableEq K] {cfg : CacheCfg}
    (szV : V → Int) (szT : Nat → V → Int) (now : Nat) (c : Cache K) (k : K)
    (hu : cfg.hasUntil = false) (hb : cfg.max_size ≠ 0 ∨ cfg.max_bytes ≠ 0) :
    removeOldKey cfg szV szT now c k = ⟨false, delitem cfg szV szT c k⟩ := by
  unfold removeOldKey
  by_cases hs : (lookup c.entries k).isSome
  · rw [if_pos ⟨hb, hs⟩]
    obtain ⟨p, hp⟩ := Option.isSome_iff_exists.mp hs
    obtain ⟨exp, v⟩ := p
    rw [getitem_no_until_some szV szT now hu hp]
  · rw [if_neg (by tauto)]
    have hn : lookup c.entries k = none := Option.not_isSome_iff_eq_none.mp hs
    rw [delitem, hn]

theorem storeStep_sizeLe {K : Type} [DecidableEq K] {cfg : CacheCfg}
    {szV : V → Int} (exp : Nat) {c : Cache K} {k : K} (v : V)
    (hnn : ∀ w : V, 0 ≤ szV w) (hg : SizeLeCache szV c) :
    SizeLeCache szV (storeStep cfg szV exp c k v) := by
  unfold storeStep
  by_cases hnull : cfg.ignore_nulls ∧ v = none
  · rw [if_pos hnull]; exact hg
  · rw [if_neg hnull]
    cases hl : lookup c.entries k with
    | none =>
        refine ⟨?_, ?_⟩
        · rw [keysOf, superSet_of_lookup_none exp v hl]
          exact nodup_keysOf_append_single exp v hg.1 hl
        · show sizeSum szV (superSet c.entries k exp v) ≤ c.current_size + szV v
          rw [superSet_of_lookup_none exp v hl, sizeSum_append_single]
          exact add_le_add_right hg.2 _
    | some p =>
        obtain ⟨e0, v0⟩ := p
        refine ⟨?_, ?_⟩
        · show (keysOf (superSet c.entries k exp v)).Nodup
          rw [keysOf_superSet_present exp v hl]
          exact hg.1
        · show sizeSum szV (superSet c.entries k exp v) ≤ c.current_size + szV v
          rw [sizeSum_superSet_present szV exp v hl]
          have h1 := hg.2
          have h2 := hnn v0
          omega

theorem removeOldKey_sizeLe {K : Type} [DecidableEq K] {cfg : CacheCfg}
    {szV : V → Int} (szT : Nat → V → Int) (now : Nat) {c : Cache K} (k : K)
    (hu : cfg.hasUntil = false) (hg : SizeLeCache szV c) :
    (removeOldKey cfg szV szT now c k).err = false ∧
    SizeLeCache szV (removeOldKey cfg szV szT now c k).cache := by
  unfold removeOldKey
  by_cases hcond : (cfg.max_size ≠ 0 ∨ cfg.max_bytes ≠ 0) ∧ (lookup c.entries k).isSome
  · rw [if_pos hcond]
    obtain ⟨p, hp⟩ := Option.isSome_iff_exists.mp hcond.2
    obtain ⟨e0, v0⟩ := p
    rw [getitem_no_until_some szV szT now hu hp]
    exact ⟨rfl, delitem_sizeLe szT k hu hg⟩
  · rw [if_neg hcond]
    exact ⟨rfl, hg⟩

theorem setitem_sizeLe {K : Type} [DecidableEq K] {cfg : CacheCfg}
    {szV : V → Int} (szT : Nat → V → Int) (exp now : Nat) {c : Cache K}
    (k : K) (v : V) (hu : cfg.hasUntil = false) (hnn : ∀ w : V, 0 ≤ szV w)
    (hg : SizeLeCache szV c) :
    (setitem cfg szV szT exp now c k v).err = false ∧
    SizeLeCache szV (setitem cfg szV szT exp now c k v).cache := by
  obtain ⟨hr1e, hr1⟩ := removeOldKey_sizeLe szT now k hu hg
  have hg2 : SizeLeCache szV
      (storeStep cfg szV exp (removeOldKey cfg szV szT now c k).cache k v) :=
    storeStep_sizeLe exp v hnn hr1
  unfold setitem
  simp only [hr1e, Bool.false_eq_true, if_false]
  refine ⟨trivial, ?_⟩
  by_cases hmb : cfg.max_bytes ≠ 0
  · rw [if_pos hmb]
    have hg3 : SizeLeCache szV (evictBytes cfg
        (storeStep cfg szV exp (removeOldKey cfg szV szT now c k).cache k v).entries.length
        (storeStep cfg szV exp (removeOldKey cfg szV szT now c k).cache k v)) :=
      evictBytes_sizeLe hnn _ _ hg2
    by_cases hms : cfg.max_size ≠ 0
    · rw [if_pos hms]
      exact evictSize_sizeLe hnn _ _ hg3
    · rw [if_neg hms]
      exact hg3
  · rw [if_neg hmb]
    by_cases hms : cfg.max_size ≠ 0
    · rw [if_pos hms]
      exact evictSize_sizeLe hnn _ _ hg2
    · rw [if_neg hms]
      exact hg2

theorem evictBytes_exit {K : Type} [DecidableEq K] (cfg : CacheCfg) :
    ∀ (fuel : Nat) (c : Cache K), c.entries.length ≤ fuel →
      (evictBytes cfg fuel c).entries = [] ∨
      (evictBytes cfg fuel c).current_size ≤ (cfg.max_bytes : Int) := by
  intro fuel
  induction fuel with
  | zero =>
      intro c hlen
      exact Or.inl (List.length_eq_zero.mp (Nat.le_zero.mp hlen))
  | succ n ih =>
      intro c hlen
      unfold evictBytes
      by_cases hcond : c.entries ≠ [] ∧ (cfg.max_bytes : Int) < c.current_size
      · rw [if_pos hcond]
        obtain ⟨e, tl, hc⟩ : ∃ e tl, c.entries = e :: tl := by
          cases h : c.entries with
          | nil => exact absurd h hcond.1
          | cons e tl => exact ⟨e, tl, rfl⟩
        rw [popFirst_cons hc]
        apply ih
        show tl.length ≤ n
        rw [hc] at hlen
        simpa using hlen
      · rw [if_neg hcond]
        rcases not_and_or.mp hcond with h | h
        · exact Or.inl (not_not.mp h)
        · exact Or.inr (le_of_not_lt h)

theorem evictSize_sizeSum_le {K : Type} [DecidableEq K] (cfg : CacheCfg) {szV : V → Int}
    (hnn : ∀ w : V, 0 ≤ szV w) :
    ∀ (fuel : Nat) (c : Cache K),
      sizeSum szV (evictSize cfg fuel c).entries ≤ sizeSum szV c.entries := by
  intro fuel
  induction fuel with
  | zero => intro c; exact le_refl _
  | succ n ih =>
      intro c
      unfold evictSize
      by_cases hcond : c.entries ≠ [] ∧ cfg.max_size < c.entries.length
      · rw [if_pos hcond]
        obtain ⟨e, tl, hc⟩ : ∃ e tl, c.entries = e :: tl := by
          cases h : c.entries with
          | nil => exact absurd h hcond.1
          | cons e tl => exact ⟨e, tl, rfl⟩
        rw [popFirst_cons hc]
        refine le_trans (ih _) ?_
        rw [hc]
        show sizeSum szV tl ≤ sizeSum szV (e :: tl)
        have hhead : sizeSum szV (e :: tl) = szV e.2.2 + sizeSum szV tl := by
          simp [sizeSum]
        have := hnn e.2.2
        omega
      · rw [if_neg hcond]

theorem setitem_live_bound {K : Type} [DecidableEq K] {cfg : CacheCfg}
    {szV : V → Int} (szT : Nat → V → Int) (exp now : Nat) {c : Cache K}
    (k : K) (v : V) (hu : cfg.hasUntil = false) (hmb : cfg.max_bytes ≠ 0)
    (hnn : ∀ w : V, 0 ≤ szV w) (hg : SizeLeCache szV c) :
    sizeSum szV (setitem cfg szV szT exp now c k v).cache.entries
      ≤ (cfg.max_bytes : Int) := by
  obtain ⟨hr1e, hr1⟩ := removeOldKey_sizeLe szT now k hu hg
  have hg2 : SizeLeCache szV
      (storeStep cfg szV exp (removeOldKey cfg szV szT now c k).cache k v) :=
    storeStep_sizeLe exp v hnn hr1
  have hg3 : SizeLeCache szV (evictBytes cfg
      (storeStep cfg szV exp (removeOldKey cfg szV szT now c k).cache k v).entries.length
      (storeStep cfg szV exp (removeOldKey cfg szV szT now c k).cache k v)) :=
    evictBytes_sizeLe hnn
    (storeStep cfg szV exp (removeOldKey cfg szV szT now c k).cache k v).entries.length
    (storeStep cfg szV exp (removeOldKey cfg szV szT now c k).cache k v) hg2
  have hexit := evictBytes_exit cfg
    (storeStep cfg szV exp (removeOldKey cfg szV szT now c k).cache k v).entries.length
    (storeStep cfg szV exp (removeOldKey cfg szV szT now c k).cache k v) (le_refl _)
  have hbound : sizeSum szV (evictBytes cfg
      (storeStep cfg szV exp (removeOldKey cfg szV szT now c k).cache k v).entries.length
      (storeStep cfg szV exp (removeOldKey cfg szV szT now c k).cache k v)).entries
      ≤ (cfg.max_bytes : Int) := by
    rcases hexit with h | h
    · rw [h]
      show (0 : Int) ≤ (cfg.max_bytes : Int)
      exact Int.natCast_nonneg _
    · exact le_trans hg3.2 h
  unfold setitem
  simp only [hr1e, Bool.false_eq_true, if_false]
  rw [if_pos hmb]
  by_cases hms : cfg.max_size ≠ 0
  · rw [if_pos hms]
    exact le_trans (evictSize_sizeSum_le cfg hnn _ _) hbound
  · rw [if_neg hms]
    exact hbound

theorem evictSize_entries_drop {K : Type} [DecidableEq K] (cfg : CacheCfg) :
    ∀ (fuel : Nat) (c : Cache K), c.entries.length ≤ fuel →
      (evictSize cfg fuel c).entries =
        c.entries.drop (c.entries.length - cfg.max_size) := by
  intro fuel
  induction fuel with
  | zero =>
      intro c hlen
      have he : c.entries = [] := List.length_eq_zero.mp (Nat.le_zero.mp hlen)
      simp [evictSize, he]
  | succ n ih =>
      intro c hlen
      unfold evictSize
      by_cases hcond : c.entries ≠ [] ∧ cfg.max_size < c.entries.length
      · rw [if_pos hcond]
        obtain ⟨e, tl, hc⟩ : ∃ e tl, c.entries = e :: tl := by
          cases h : c.entries with
          | nil => exact absurd h hcond.1
          | cons e tl => exact ⟨e, tl, rfl⟩
        rw [popFirst_cons hc]
        have hlen2 : tl.length ≤ n := by
          rw [hc] at hlen; simpa using hlen
        rw [ih ⟨tl, c.current_size⟩ hlen2, hc]
        have hN : cfg.max_size ≤ tl.length := by
          rw [hc] at hcond
          exact Nat.lt_succ_iff.mp (by simpa using hcond.2)
        have harith : (e :: tl).length - cfg.max_size
            = (tl.length - cfg.max_size) + 1 := by
          simp only [List.length_cons]; omega
        rw [harith, List.drop_succ_cons]
      · rw [if_neg hcond]
        rcases not_and_or.mp hcond with h | h
        · have he : c.entries = [] := not_not.mp h
          simp [he]
        · have : c.entries.length - cfg.max_size = 0 := by omega
          simp [this]

theorem setitem_entries_drop {K : Type} [DecidableEq K] {cfg : CacheCfg}
    (szV : V → Int) (szT : Nat → V → Int) (exp now : Nat) {c : Cache K}
    (k : K) (v : V) (hu : cfg.hasUntil = false) (hmb : cfg.max_bytes = 0)
    (hms : cfg.max_size ≠ 0) (hnv : ¬(cfg.ignore_nulls = true ∧ v = none))
    (hnd : (keysOf c.entries).Nodup) :
    (setitem cfg szV szT exp now c k v).err = false ∧
    (setitem cfg szV szT exp now c k v).cache.entries =
      (removeKey c.entries k ++ [(k, exp, v)]).drop
        ((removeKey c.entries k ++ [(k, exp, v)]).length - cfg.max_size) := by
  have hb : cfg.max_size ≠ 0 ∨ cfg.max_bytes ≠ 0 := Or.inl hms
  have hlk1 : lookup (delitem cfg szV szT c k).entries k = none := by
    rw [delitem_entries_eq_removeKey]
    exact lookup_removeKey_self hnd
  have hstore : (storeStep cfg szV exp (delitem cfg szV szT c k) k v).entries
      = removeKey c.entries k ++ [(k, exp, v)] := by
    unfold storeStep
    rw [if_neg hnv, superSet_of_lookup_none exp v hlk1, delitem_entries_eq_removeKey]
  have hset : setitem cfg szV szT exp now c k v
      = ⟨false, evictSize cfg
          (storeStep cfg szV exp (delitem cfg szV szT c k) k v).entries.length
          (storeStep cfg szV exp (delitem cfg szV szT c k) k v)⟩ := by
    unfold setitem
    rw [removeOldKey_no_until szV szT now c k hu hb]
    simp [hmb, hms]
  rw [hset]
  refine ⟨rfl, ?_⟩
  rw [evictSize_entries_drop cfg _
    (storeStep cfg szV exp (delitem cfg szV szT c k) k v) (le_refl _), hstore]

/-! ## Lemmas about the wrapper and about write sequences -/

theorem memoCall_hit {K ε : Type} [DecidableEq K] (cfg : CacheCfg)
    (szV : V → Int) (szT : Nat → V → Int) (func : K → Except ε V)
    (exp now : Nat) (s : MemoState K) (k : K) {e : Nat} {v : V}
    (hl : lookup s.cache.entries k = some (e, v))
    (hexp : cfg.hasUntil = true → ¬ e < now) :
    memoCall cfg szV szT func exp now s k
      = ⟨.ok v, ⟨⟨s.stats.call + 1, s.stats.miss⟩, s.cache⟩, false⟩ := by
  have hget : getitem cfg szV szT now s.cache k = (.hit v, s.cache) := by
    unfold getitem
    rw [hl]
    exact if_neg (fun hcontra => hexp hcontra.1 hcontra.2)
  unfold memoCall
  rw [hget]

theorem memoCall_miss_err {K ε : Type} [DecidableEq K] (cfg : CacheCfg)
    (szV : V → Int) (szT : Nat → V → Int) {func : K → Except ε V}
    (exp now : Nat) (s : MemoState K) (k : K) {er : ε}
    (hl : lookup s.cache.entries k = none) (hf : func k = .error er) :
    memoCall cfg szV szT func exp now s k
      = ⟨.funcErr er, ⟨⟨s.stats.call + 1, s.stats.miss + 1⟩, s.cache⟩, true⟩ := by
  unfold memoCall
  rw [getitem_lookup_none cfg szV szT now hl, hf]

theorem memoCall_miss_ok {K ε : Type} [DecidableEq K] (cfg : CacheCfg)
    (szV : V → Int) (szT : Nat → V → Int) {func : K → Except ε V}
    (exp now : Nat) (s : MemoState K) (k : K) {v : V}
    (hl : lookup s.cache.entries k = none) (hf : func k = .ok v) :
    memoCall cfg szV szT func exp now s k
      = ⟨if (setitem cfg szV szT exp now s.cache k v).err then .keyErr else .ok v,
         ⟨⟨s.stats.call + 1, s.stats.miss + 1⟩,
          (setitem cfg szV szT exp now s.cache k v).cache⟩, true⟩ := by
  unfold memoCall
  rw [getitem_lookup_none cfg szV szT now hl, hf]

theorem memoCall_invoked_of_absent {K ε : Type} [DecidableEq K]
    (cfg : CacheCfg) (szV : V → Int) (szT : Nat → V → Int)
    (func : K → Except ε V) (exp now : Nat) (s : MemoState K) (k : K)
    (hl : lookup s.cache.entries k = none) :
    (memoCall cfg szV szT func exp now s k).invoked = true := by
  cases hf : func k with
  | error er => rw [memoCall_miss_err cfg szV szT exp now s k hl hf]
  | ok v => rw [memoCall_miss_ok cfg szV szT exp now s k hl hf]

theorem runWritesFrom_sizeLe {K : Type} [DecidableEq K] {cfg : CacheCfg}
    {szV : V → Int} (szT : Nat → V → Int) (hu : cfg.hasUntil = false)
    (hnn : ∀ w : V, 0 ≤ szV w) :
    ∀ (ws : List (Nat × Nat × K × V)) (r : SetRes K), SizeLeRes szV r →
      SizeLeRes szV (runWritesFrom cfg szV szT r ws) := by
  intro ws
  induction ws with
  | nil => intro r hr; exact hr
  | cons w rest ih =>
      intro r hr
      unfold runWritesFrom
      rw [if_neg (by rw [hr.1]; simp)]
      exact ih _ (setitem_sizeLe szT w.1 w.2.1 w.2.2.1 w.2.2.2 hu hnn hr.2)

theorem runWrites_sizeLe {K : Type} [DecidableEq K] {cfg : CacheCfg}
    {szV : V → Int} (szT : Nat → V → Int) (hu : cfg.hasUntil = false)
    (hnn : ∀ w : V, 0 ≤ szV w) (ws : List (Nat × Nat × K × V)) :
    SizeLeRes szV (runWrites cfg szV szT ws : SetRes K) :=
  runWritesFrom_sizeLe szT hu hnn ws _ ⟨rfl, List.nodup_nil, le_refl _⟩

theorem runWritesFrom_append_single {K : Type} [DecidableEq K]
    (cfg : CacheCfg) (szV : V → Int) (szT : Nat → V → Int)
    (ws : List (Nat × Nat × K × V)) (w : Nat × Nat × K × V) :
    ∀ r : SetRes K, runWritesFrom cfg szV szT r (ws ++ [w])
      = (if (runWritesFrom cfg szV szT r ws).err
         then runWritesFrom cfg szV szT r ws
         else setitem cfg szV szT w.1 w.2.1 (runWritesFrom cfg szV szT r ws).cache
                w.2.2.1 w.2.2.2) := by
  induction ws with
  | nil => intro r; rfl
  | cons w0 rest ih =>
      intro r
      rw [List.cons_append]
      unfold runWritesFrom
      exact ih _

/-! ## The claims -/

/-- C1, counterexample to the claim as stated: under the `ignore_nulls`
configuration with a computation returning `None`, nothing is stored, so the
second call with the same key -- with no expiration or eviction anywhere --
invokes the wrapped computation again and increments `misses` again,
contradicting "only the first call invokes the wrapped computation ... and
leaves the misses counter unchanged". -/
theorem repeat_call_ignore_nulls_counterexample :
    (memoCall ⟨0, 0, false, true⟩ szConst8 szTupConst5 funcNone 0 0 initState 0).invoked
      = true ∧
    (memoCall ⟨0, 0, false, true⟩ szConst8 szTupConst5 funcNone 0 0
      (memoCall ⟨0, 0, false, true⟩ szConst8 szTupConst5 funcNone 0 0 initState 0).state
      0).invoked = true ∧
    (memoCall ⟨0, 0, false, true⟩ szConst8 szTupConst5 funcNone 0 0
      (memoCall ⟨0, 0, false, true⟩ szConst8 szTupConst5 funcNone 0 0 initState 0).state
      0).state.stats = ⟨2, 2⟩ := by
  decide

/-- C1 (amended): for every memoize configuration and every pair of calls
producing the same cache key, provided the first call's computed value was
actually stored and is still live when the second call reads (no expiration
or eviction in between -- which also requires the value not to have been
suppressed by `ignore_nulls`), the first call invokes the wrapped
computation and the second does not: it returns the stored value, increments
`calls` by exactly one, leaves `misses` unchanged and leaves the cache
untouched. -/
theorem repeat_call_returns_stored_value {K ε : Type} [DecidableEq K]
    (cfg : CacheCfg) (szV : V → Int) (szT : Nat → V → Int)
    (func : K → Except ε V) (e1 n1 e2 n2 : Nat) (st : Stats) (c : Cache K)
    (k : K) (v : V)
    (h0 : lookup c.entries k = none)
    (hsurv : lookup (memoCall cfg szV szT func e1 n1 ⟨st, c⟩ k).state.cache.entries k
      = some (e1, v))
    (hexp : cfg.hasUntil = true → ¬ e1 < n2) :
    (memoCall cfg szV szT func e1 n1 ⟨st, c⟩ k).invoked = true ∧
    memoCall cfg szV szT func e2 n2 (memoCall cfg szV szT func e1 n1 ⟨st, c⟩ k).state k
      = ⟨.ok v,
         ⟨⟨(memoCall cfg szV szT func e1 n1 ⟨st, c⟩ k).state.stats.call + 1,
           (memoCall cfg szV szT func e1 n1 ⟨st, c⟩ k).state.stats.miss⟩,
          (memoCall cfg szV szT func e1 n1 ⟨st, c⟩ k).state.cache⟩, false⟩ :=
  ⟨memoCall_invoked_of_absent cfg szV szT func e1 n1 ⟨st, c⟩ k h0,
   memoCall_hit cfg szV szT func e2 n2 _ k hsurv hexp⟩

/-- C1 witness: the amended theorem applied at a concrete input (default
configuration, identity computation, key 0). -/
theorem repeat_call_returns_stored_value_witness :
    (memoCall defaultCfg szConst8 szTupConst5 funcIdVal 0 0 initState 0).invoked = true ∧
    memoCall defaultCfg szConst8 szTupConst5 funcIdVal 0 0
      (memoCall defaultCfg szConst8 szTupConst5 funcIdVal 0 0 initState 0).state 0
      = ⟨.ok (some 0),
         ⟨⟨(memoCall defaultCfg szConst8 szTupConst5 funcIdVal 0 0 initState 0).state.stats.call + 1,
           (memoCall defaultCfg szConst8 szTupConst5 funcIdVal 0 0 initState 0).state.stats.miss⟩,
          (memoCall defaultCfg szConst8 szTupConst5 funcIdVal 0 0 initState 0).state.cache⟩,
         false⟩ :=
  repeat_call_returns_stored_value defaultCfg szConst8 szTupConst5 funcIdVal 0 0 0 0
    ⟨0, 0⟩ Cache.empty 0 (some 0) (by decide) (by decide) (by decide)

/-- C2, counterexample to the claim as stated, in three configurations.
First, with no bound configured the generated class is a plain `dict`
subclass with no `remove_old_key` fragment, so re-writing an existing key
adds the new value's size without subtracting the old one: after writing key
0 twice the counter is 16 while one live entry of size 8 remains.  Second,
with `until` configured the store adds `sys.getsizeof` of the bare value
while the expiry deletion subtracts `sys.getsizeof` of the stored
`(expiration, value)` tuple, so after an expired read the counter is 3 with
no live entries.  Third, with `max_size = 1`, writing two distinct keys of
size 8 evicts the older one through `OrderedDict.popitem`, which bypasses
`__delitem__` and never decrements the counter: the counter stays 16 while
the one live entry sums to 8 -- so the invariant fails even in bounded
configurations whenever an eviction fires. -/
theorem current_size_sum_counterexample :
    ((runWrites ⟨0, 0, false, false⟩ szConst8 szTupConst5
        ([(0, 0, 0, some 1), (0, 0, 0, some 2)] : List (Nat × Nat × Nat × V))).cache.current_size
      ≠ sizeSum szConst8 (runWrites ⟨0, 0, false, false⟩ szConst8 szTupConst5
        ([(0, 0, 0, some 1), (0, 0, 0, some 2)] : List (Nat × Nat × Nat × V))).cache.entries) ∧
    ((getitem ⟨0, 0, true, false⟩ szConst8 szTupConst5 20
        (runWrites ⟨0, 0, true, false⟩ szConst8 szTupConst5
          ([(10, 0, 0, some 1)] : List (Nat × Nat × Nat × V))).cache 0).2.current_size
      ≠ sizeSum szConst8 (getitem ⟨0, 0, true, false⟩ szConst8 szTupConst5 20
        (runWrites ⟨0, 0, true, false⟩ szConst8 szTupConst5
          ([(10, 0, 0, some 1)] : List (Nat × Nat × Nat × V))).cache 0).2.entries) ∧
    ((runWrites ⟨1, 0, false, false⟩ szConst8 szTupConst5
        ([(0, 0, 0, some 1), (0, 0, 1, some 2)] : List (Nat × Nat × Nat × V))).cache.current_size
      ≠ sizeSum szConst8 (runWrites ⟨1, 0, false, false⟩ szConst8 szTupConst5
        ([(0, 0, 0, some 1), (0, 0, 1, some 2)] : List (Nat × Nat × Nat × V))).cache.entries) := by
  decide

/-- C2 (amended): without a TTL function, and with nonnegative size
estimates (as `sys.getsizeof` always is), after every sequence of writes to
a fresh cache no `KeyError` escapes and `current_size` is at least the sum
of the size estimates of the live entries -- the counter never under-counts.
Equality fails in general: evictions go through `OrderedDict.popitem`, which
bypasses `__delitem__` and never decrements the counter; re-writing an
existing key without a configured bound adds without subtracting; and with a
TTL function the counter can even under-count (stores add the bare value's
size while deletions subtract the stored tuple's size). -/
theorem current_size_dominates_live_sum_no_ttl {K : Type} [DecidableEq K]
    (cfg : CacheCfg) (szV : V → Int) (szT : Nat → V → Int)
    (hu : cfg.hasUntil = false) (hnn : ∀ w : V, 0 ≤ szV w)
    (ws : List (Nat × Nat × K × V)) :
    (runWrites cfg szV szT ws).err = false ∧
    sizeSum szV (runWrites cfg szV szT ws).cache.entries
      ≤ (runWrites cfg szV szT ws).cache.current_size := by
  obtain ⟨he, _, hs⟩ := runWrites_sizeLe szT hu hnn ws
  exact ⟨he, hs⟩

/-- C2 witness: the amended bound at a concrete capacity-bounded
configuration whose second write triggers an eviction. -/
theorem current_size_dominates_live_sum_no_ttl_witness :
    (runWrites ⟨1, 0, false, false⟩ szConst8 szTupConst5
      ([(0, 0, 0, some 1), (0, 0, 1, some 2)] : List (Nat × Nat × Nat × V))).err
      = false ∧
    sizeSum szConst8 (runWrites ⟨1, 0, false, false⟩ szConst8 szTupConst5
      ([(0, 0, 0, some 1), (0, 0, 1, some 2)] : List (Nat × Nat × Nat × V))).cache.entries
      ≤ (runWrites ⟨1, 0, false, false⟩ szConst8 szTupConst5
      ([(0, 0, 0, some 1), (0, 0, 1, some 2)] : List (Nat × Nat × Nat × V))).cache.current_size :=
  current_size_dominates_live_sum_no_ttl ⟨1, 0, false, false⟩ szConst8 szTupConst5 rfl
    (fun _ => by norm_num [szConst8]) _

/-- C3, counterexample to the claim as stated, with no TTL involved: with
`max_bytes = 10`, two writes of distinct keys of size 8 push the counter to
16; the `byte_filter` loop pops entries through `OrderedDict.popitem`, which
bypasses `__delitem__` and never decrements the counter, so it empties the
whole store and exits with `current_size = 16 > max_bytes` -- the counter
stays above the bound after the write. -/
theorem byte_bound_counter_counterexample :
    (runWrites ⟨0, 10, false, false⟩ szConst8 szTupConst5
      ([(0, 0, 0, some 1), (0, 0, 1, some 2)] : List (Nat × Nat × Nat × V))).err = false ∧
    (runWrites ⟨0, 10, false, false⟩ szConst8 szTupConst5
      ([(0, 0, 0, some 1), (0, 0, 1, some 2)] : List (Nat × Nat × Nat × V))).cache.entries = [] ∧
    ¬ (runWrites ⟨0, 10, false, false⟩ szConst8 szTupConst5
      ([(0, 0, 0, some 1), (0, 0, 1, some 2)] : List (Nat × Nat × Nat × V))).cache.current_size
      ≤ ((10 : Nat) : Int) := by
  decide

/-- C3 (amended): if a byte bound `max_bytes` is configured, no TTL function
is configured, and the size estimates are nonnegative (as `sys.getsizeof`
always is), then after every write to a fresh cache the total size of the
entries actually live in the store is at most `max_bytes`.  The
`current_size` counter itself can exceed `max_bytes` and stay exceeded,
because evictions (`OrderedDict.popitem`) bypass `__delitem__` and never
decrement it; once it exceeds the bound, the `byte_filter` loop simply
empties the entire store. -/
theorem byte_bound_live_entries_no_ttl {K : Type} [DecidableEq K]
    (cfg : CacheCfg) (szV : V → Int) (szT : Nat → V → Int)
    (hu : cfg.hasUntil = false) (hmb : cfg.max_bytes ≠ 0)
    (hnn : ∀ w : V, 0 ≤ szV w) (ws : List (Nat × Nat × K × V))
    (w : Nat × Nat × K × V) :
    sizeSum szV (runWrites cfg szV szT (ws ++ [w])).cache.entries
      ≤ (cfg.max_bytes : Int) := by
  have hg : SizeLeRes szV (runWrites cfg szV szT ws : SetRes K) :=
    runWrites_sizeLe szT hu hnn ws
  unfold runWrites at hg ⊢
  rw [runWritesFrom_append_single]
  rw [if_neg (by rw [hg.1]; simp)]
  exact setitem_live_bound szT w.1 w.2.1 w.2.2.1 w.2.2.2 hu hmb hnn hg.2

/-- C3 witness: the amended live-size bound at a concrete byte-bounded
configuration whose second write overflows the counter and flushes the
store. -/
theorem byte_bound_live_entries_no_ttl_witness :
    sizeSum szConst8 (runWrites ⟨0, 10, false, false⟩ szConst8 szTupConst5
      (([(0, 0, 0, some 1)] : List (Nat × Nat × Nat × V)) ++ [(0, 0, 1, some 2)])).cache.entries
      ≤ (((⟨0, 10, false, false⟩ : CacheCfg).max_bytes : Nat) : Int) :=
  byte_bound_live_entries_no_ttl ⟨0, 10, false, false⟩ szConst8 szTupConst5 rfl
    (by decide) (fun _ => by norm_num [szConst8]) [(0, 0, 0, some 1)] (0, 0, 1, some 2)

/-- C4, counterexample to the claim as stated: the generated class defines no
`clear`, so the inherited `dict.clear` empties the dict but leaves
`current_size` at its old value 8 instead of resetting it to zero. -/
theorem clear_size_reset_counterexample :
    (clearCache (⟨[(0, 0, some 1)], 8⟩ : Cache Nat)).entries = [] ∧
    (clearCache (⟨[(0, 0, some 1)], 8⟩ : Cache Nat)).current_size ≠ 0 := by
  decide

/-- C4 (amended): for every cache, `clear` removes all entries and always
succeeds with no error conditions regardless of prior contents or
configuration, but it leaves the `current_size` counter unchanged rather
than resetting it to zero. -/
theorem clear_removes_all_keeps_counter {K : Type} (c : Cache K) :
    (clearCache c).entries = [] ∧ (clearCache c).current_size = c.current_size :=
  ⟨rfl, rfl⟩

/-- C5: with a capacity bound `max_entries = 2`, calling with keys A=0, B=1,
C=2 in order (each a miss) leaves the store containing exactly B, C with A
evicted, and a subsequent call with A is a miss leaving exactly C, A with B
evicted; in general, for `max_size = N` (no other policy configured), every
write succeeds, the resulting store is the write-recency list truncated by
dropping its oldest entries, and it holds at most N entries -- each eviction
removes the oldest entry by write order. -/
theorem capacity_bound_fifo_eviction :
    (∀ (K : Type) [DecidableEq K] (cfg : CacheCfg) (szV : V → Int)
        (szT : Nat → V → Int) (exp now : Nat) (c : Cache K) (k : K) (v : V),
        cfg.hasUntil = false → cfg.max_bytes = 0 → cfg.max_size ≠ 0 →
        ¬(cfg.ignore_nulls = true ∧ v = none) → (keysOf c.entries).Nodup →
        (setitem cfg szV szT exp now c k v).err = false ∧
        (setitem cfg szV szT exp now c k v).cache.entries
          = (removeKey c.entries k ++ [(k, exp, v)]).drop
              ((removeKey c.entries k ++ [(k, exp, v)]).length - cfg.max_size) ∧
        (setitem cfg szV szT exp now c k v).cache.entries.length ≤ cfg.max_size) ∧
    (scenarioCall1.invoked = true ∧ scenarioCall2.invoked = true ∧
     scenarioCall3.invoked = true ∧
     keysOf scenarioCall3.state.cache.entries = [1, 2] ∧
     scenarioCall4.invoked = true ∧
     keysOf scenarioCall4.state.cache.entries = [2, 0]) := by
  constructor
  · intro K instK cfg szV szT exp now c k v hu hmb hms hnv hnd
    obtain ⟨herr, hent⟩ := setitem_entries_drop szV szT exp now k v hu hmb hms hnv hnd
    refine ⟨herr, hent, ?_⟩
    rw [hent, List.length_drop]
    omega
  · decide

/-- C5 witness: the general part applied to a concrete two-entry store
receiving a third key. -/
theorem capacity_bound_fifo_eviction_witness :
    (setitem twoEntryCfg szConst8 szTupConst5 0 0
      (⟨[(5, 0, some 1), (6, 0, some 2)], 16⟩ : Cache Nat) 7 (some 3)).err = false ∧
    (setitem twoEntryCfg szConst8 szTupConst5 0 0
      (⟨[(5, 0, some 1), (6, 0, some 2)], 16⟩ : Cache Nat) 7 (some 3)).cache.entries
      = (removeKey ([(5, 0, some 1), (6, 0, some 2)] : List (Nat × Nat × V)) 7
          ++ [(7, 0, some 3)]).drop
          ((removeKey ([(5, 0, some 1), (6, 0, some 2)] : List (Nat × Nat × V)) 7
            ++ [(7, 0, some 3)]).length - twoEntryCfg.max_size) ∧
    (setitem twoEntryCfg szConst8 szTupConst5 0 0
      (⟨[(5, 0, some 1), (6, 0, some 2)], 16⟩ : Cache Nat) 7 (some 3)).cache.entries.length
      ≤ twoEntryCfg.max_size :=
  capacity_bound_fifo_eviction.1 Nat twoEntryCfg szConst8 szTupConst5 0 0
    ⟨[(5, 0, some 1), (6, 0, some 2)], 16⟩ 7 (some 3) rfl rfl (by decide)
    (by decide) (by decide)

/-- C6, counterexample to the claim as stated: the expiry check of the read
path is the strict `expiration < time.time()`, so a read at exactly
`now = expires_at` (entry stored with expiration 5, read at time 5) returns
the stored value as a hit and leaves the entry in place, where the claim
demands deletion and a miss for every `now ≥ expires_at`. -/
theorem ttl_boundary_counterexample :
    memoCall ⟨0, 0, true, false⟩ szConst8 szTupConst5 funcIdVal 99 5
      (⟨⟨0, 0⟩, ⟨[(0, 5, some 7)], 8⟩⟩ : MemoState Nat) 0
      = ⟨.ok (some 7), ⟨⟨1, 0⟩, ⟨[(0, 5, some 7)], 8⟩⟩, false⟩ := by
  decide

/-- C6 (amended): for an entry stored with a TTL function configured, a read
at a time `now` with `now > expires_at` deletes the entry and behaves
exactly like a read of an absent key (a miss that recomputes and re-stores):
the call coincides with the same call on the cache with the entry deleted,
the key is indeed absent there, the computation is invoked and `misses` is
incremented; a read with `now ≤ expires_at` returns the stored value as a
hit, leaving the cache untouched. -/
theorem ttl_expired_read_is_absent_key {K ε : Type} [DecidableEq K]
    (cfg : CacheCfg) (szV : V → Int) (szT : Nat → V → Int)
    (func : K → Except ε V) (e2 now : Nat) (st : Stats) (c : Cache K)
    (k : K) (exp : Nat) (v : V) (hu : cfg.hasUntil = true)
    (hnd : (keysOf c.entries).Nodup) (hl : lookup c.entries k = some (exp, v)) :
    (exp < now →
      memoCall cfg szV szT func e2 now ⟨st, c⟩ k
        = memoCall cfg szV szT func e2 now ⟨st, delitem cfg szV szT c k⟩ k ∧
      lookup (delitem cfg szV szT c k).entries k = none ∧
      (memoCall cfg szV szT func e2 now ⟨st, c⟩ k).invoked = true ∧
      (memoCall cfg szV szT func e2 now ⟨st, c⟩ k).state.stats.miss = st.miss + 1) ∧
    (¬ exp < now →
      memoCall cfg szV szT func e2 now ⟨st, c⟩ k
        = ⟨.ok v, ⟨⟨st.call + 1, st.miss⟩, c⟩, false⟩) := by
  constructor
  · intro hlt
    have hget1 : getitem cfg szV szT now c k = (.keyError, delitem cfg szV szT c k) := by
      unfold getitem
      rw [hl]
      exact if_pos ⟨hu, hlt⟩
    have hlk : lookup (delitem cfg szV szT c k).entries k = none := by
      rw [delitem_entries_eq_removeKey]
      exact lookup_removeKey_self hnd
    have hget2 : getitem cfg szV szT now (delitem cfg szV szT c k) k
        = (.keyError, delitem cfg szV szT c k) :=
      getitem_lookup_none cfg szV szT now hlk
    have heq : memoCall cfg szV szT func e2 now ⟨st, c⟩ k
        = memoCall cfg szV szT func e2 now ⟨st, delitem cfg szV szT c k⟩ k := by
      unfold memoCall
      rw [hget1, hget2]
    refine ⟨heq, hlk, ?_, ?_⟩
    · rw [heq]
      exact memoCall_invoked_of_absent cfg szV szT func e2 now _ k hlk
    · rw [heq]
      cases hf : func k with
      | error er =>
          rw [memoCall_miss_err cfg szV szT e2 now _ k hlk hf]
      | ok w =>
          rw [memoCall_miss_ok cfg szV szT e2 now _ k hlk hf]
  · intro hge
    exact memoCall_hit cfg szV szT func e2 now ⟨st, c⟩ k hl (fun _ => hge)

/-- C6 witness: the amended theorem at a concrete expired entry
(`expires_at = 5`, read at `now = 10`). -/
theorem ttl_expired_read_is_absent_key_witness :
    (5 < 10 →
      memoCall ⟨0, 0, true, false⟩ szConst8 szTupConst5 funcIdVal 0 10
          (⟨⟨0, 0⟩, ⟨[(0, 5, some 7)], 8⟩⟩ : MemoState Nat) 0
        = memoCall ⟨0, 0, true, false⟩ szConst8 szTupConst5 funcIdVal 0 10
          ⟨⟨0, 0⟩, delitem ⟨0, 0, true, false⟩ szConst8 szTupConst5 ⟨[(0, 5, some 7)], 8⟩ 0⟩ 0 ∧
      lookup (delitem ⟨0, 0, true, false⟩ szConst8 szTupConst5
        (⟨[(0, 5, some 7)], 8⟩ : Cache Nat) 0).entries 0 = none ∧
      (memoCall ⟨0, 0, true, false⟩ szConst8 szTupConst5 funcIdVal 0 10
        (⟨⟨0, 0⟩, ⟨[(0, 5, some 7)], 8⟩⟩ : MemoState Nat) 0).invoked = true ∧
      (memoCall ⟨0, 0, true, false⟩ szConst8 szTupConst5 funcIdVal 0 10
        (⟨⟨0, 0⟩, ⟨[(0, 5, some 7)], 8⟩⟩ : MemoState Nat) 0).state.stats.miss = 0 + 1) ∧
    (¬ 5 < 10 →
      memoCall ⟨0, 0, true, false⟩ szConst8 szTupConst5 funcIdVal 0 10
          (⟨⟨0, 0⟩, ⟨[(0, 5, some 7)], 8⟩⟩ : MemoState Nat) 0
        = ⟨.ok (some 7), ⟨⟨0 + 1, 0⟩, ⟨[(0, 5, some 7)], 8⟩⟩, false⟩) :=
  ttl_expired_read_is_absent_key ⟨0, 0, true, false⟩ szConst8 szTupConst5 funcIdVal 0 10
    ⟨0, 0⟩ ⟨[(0, 5, some 7)], 8⟩ 0 5 (some 7) rfl (by decide) (by decide)

/-- C7: when named-argument inclusion is enabled (`disable_kw` false), two
calls with the same positional arguments and the same name-to-value bindings
produce the same cache key no matter in which order the named arguments are
supplied, so they share one cache entry. -/
theorem kwargs_order_independent_key (args : List Int) (kw1 kw2 : List (Nat × Int))
    (hperm : kw1.Perm kw2) :
    buildKey false args kw1 = buildKey false args kw2 := by
  unfold buildKey
  simp only [Bool.false_eq_true, if_false]
  congr 1
  exact List.eq_of_perm_of_sorted
    ((List.perm_insertionSort kvLe kw1).trans
      (hperm.trans (List.perm_insertionSort kvLe kw2).symm))
    (List.sorted_insertionSort kvLe kw1) (List.sorted_insertionSort kvLe kw2)

/-- C7 witness: the two orders of supplying `x=10, y=20` build one key. -/
theorem kwargs_order_independent_key_witness :
    buildKey false [1] [(1, 10), (2, 20)] = buildKey false [1] [(2, 20), (1, 10)] :=
  kwargs_order_independent_key [1] [(1, 10), (2, 20)] [(2, 20), (1, 10)]
    (List.Perm.swap (2, 20) (1, 10) [])

/-- C8: if the wrapped computation raises during a call (key not cached),
the error propagates to the caller unchanged, the cache is left exactly as
it was -- no entry is created or modified for that key -- and a later call
with the same key invokes the computation again. -/
theorem computation_error_not_cached {K ε : Type} [DecidableEq K]
    (cfg : CacheCfg) (szV : V → Int) (szT : Nat → V → Int)
    (func : K → Except ε V) (e1 n1 e2 n2 : Nat) (st : Stats) (c : Cache K)
    (k : K) (er : ε) (hl : lookup c.entries k = none)
    (hf : func k = .error er) :
    memoCall cfg szV szT func e1 n1 ⟨st, c⟩ k
      = ⟨.funcErr er, ⟨⟨st.call + 1, st.miss + 1⟩, c⟩, true⟩ ∧
    (memoCall cfg szV szT func e2 n2
      (memoCall cfg szV szT func e1 n1 ⟨st, c⟩ k).state k).invoked = true := by
  have h1 := memoCall_miss_err cfg szV szT e1 n1 ⟨st, c⟩ k hl hf
  refine ⟨h1, ?_⟩
  rw [h1]
  exact memoCall_invoked_of_absent cfg szV szT func e2 n2 _ k hl

/-- C8 witness: a concrete always-raising computation under the default
configuration. -/
theorem computation_error_not_cached_witness :
    memoCall defaultCfg szConst8 szTupConst5 funcFail 0 0 initState 0
      = ⟨.funcErr (), ⟨⟨0 + 1, 0 + 1⟩, Cache.empty⟩, true⟩ ∧
    (memoCall defaultCfg szConst8 szTupConst5 funcFail 0 0
      (memoCall defaultCfg szConst8 szTupConst5 funcFail 0 0 initState 0).state 0).invoked
      = true :=
  computation_error_not_cached defaultCfg szConst8 szTupConst5 funcFail 0 0 0 0
    ⟨0, 0⟩ Cache.empty 0 () (by decide) rfl

/-- C9: for a computation memoized with per-owner scope (`obj = True`,
otherwise default options), two distinct owner instances calling with the
same remaining argument each get their own cache entry, attached lazily to
the owner on first use, while both calls increment the single shared stats
counter (both are misses on fresh owners) and each call returns its own
computed value. -/
theorem per_owner_isolated_caches_shared_stats
    (szV : V → Int) (szT : Nat → V → Int) (func : Nat → Nat → Except Unit V)
    (e1 n1 e2 n2 : Nat) (st : Stats) (o1 o2 a : Nat) (v1 v2 : V)
    (hne : o1 ≠ o2) (hf1 : func o1 a = .ok v1) (hf2 : func o2 a = .ok v2) :
    (memoCallObj defaultCfg szV szT func e1 n1 ⟨[], st⟩ o1 a).invoked = true ∧
    (memoCallObj defaultCfg szV szT func e2 n2
      (memoCallObj defaultCfg szV szT func e1 n1 ⟨[], st⟩ o1 a).state o2 a).invoked = true ∧
    (memoCallObj defaultCfg szV szT func e2 n2
      (memoCallObj defaultCfg szV szT func e1 n1 ⟨[], st⟩ o1 a).state o2 a).state.stats
      = ⟨st.call + 1 + 1, st.miss + 1 + 1⟩ ∧
    getOwnerCache (memoCallObj defaultCfg szV szT func e2 n2
      (memoCallObj defaultCfg szV szT func e1 n1 ⟨[], st⟩ o1 a).state o2 a).state.owners o1
      = some ⟨[((o1, a), e1, v1)], szV v1⟩ ∧
    getOwnerCache (memoCallObj defaultCfg szV szT func e2 n2
      (memoCallObj defaultCfg szV szT func e1 n1 ⟨[], st⟩ o1 a).state o2 a).state.owners o2
      = some ⟨[((o2, a), e2, v2)], szV v2⟩ ∧
    (memoCallObj defaultCfg szV szT func e1 n1 ⟨[], st⟩ o1 a).res = .ok v1 ∧
    (memoCallObj defaultCfg szV szT func e2 n2
      (memoCallObj defaultCfg szV szT func e1 n1 ⟨[], st⟩ o1 a).state o2 a).res = .ok v2 := by
  have hfirst : memoCallObj defaultCfg szV szT func e1 n1 ⟨[], st⟩ o1 a
      = ⟨.ok v1, ⟨[(o1, ⟨[((o1, a), e1, v1)], szV v1⟩)], ⟨st.call + 1, st.miss + 1⟩⟩, true⟩ := by
    unfold memoCallObj
    simp [getOwnerCache, setOwnerCache, getitem, lookup, Cache.empty, setitem,
      removeOldKey, storeStep, superSet, defaultCfg, hf1]
  have hsecond : memoCallObj defaultCfg szV szT func e2 n2
      (memoCallObj defaultCfg szV szT func e1 n1 ⟨[], st⟩ o1 a).state o2 a
      = ⟨.ok v2, ⟨[(o1, ⟨[((o1, a), e1, v1)], szV v1⟩),
                   (o2, ⟨[((o2, a), e2, v2)], szV v2⟩)],
                  ⟨st.call + 1 + 1, st.miss + 1 + 1⟩⟩, true⟩ := by
    rw [hfirst]
    unfold memoCallObj
    simp [getOwnerCache, setOwnerCache, getitem, lookup, Cache.empty, setitem,
      removeOldKey, storeStep, superSet, defaultCfg, hf2, hne]
  rw [hsecond, hfirst]
  simp [getOwnerCache, hne]

/-- C9 witness: owners 1 and 2 calling with argument 3. -/
theorem per_owner_isolated_caches_shared_stats_witness :
    (memoCallObj defaultCfg szConst8 szTupConst5 funcAdd 0 0 ⟨[], ⟨0, 0⟩⟩ 1 3).invoked = true ∧
    (memoCallObj defaultCfg szConst8 szTupConst5 funcAdd 0 0
      (memoCallObj defaultCfg szConst8 szTupConst5 funcAdd 0 0 ⟨[], ⟨0, 0⟩⟩ 1 3).state 2 3).invoked = true ∧
    (memoCallObj defaultCfg szConst8 szTupConst5 funcAdd 0 0
      (memoCallObj defaultCfg szConst8 szTupConst5 funcAdd 0 0 ⟨[], ⟨0, 0⟩⟩ 1 3).state 2 3).state.stats
      = ⟨0 + 1 + 1, 0 + 1 + 1⟩ ∧
    getOwnerCache (memoCallObj defaultCfg szConst8 szTupConst5 funcAdd 0 0
      (memoCallObj defaultCfg szConst8 szTupConst5 funcAdd 0 0 ⟨[], ⟨0, 0⟩⟩ 1 3).state 2 3).state.owners 1
      = some ⟨[((1, 3), 0, some 4)], szConst8 (some 4)⟩ ∧
    getOwnerCache (memoCallObj defaultCfg szConst8 szTupConst5 funcAdd 0 0
      (memoCallObj defaultCfg szConst8 szTupConst5 funcAdd 0 0 ⟨[], ⟨0, 0⟩⟩ 1 3).state 2 3).state.owners 2
      = some ⟨[((2, 3), 0, some 5)], szConst8 (some 5)⟩ ∧
    (memoCallObj defaultCfg szConst8 szTupConst5 funcAdd 0 0 ⟨[], ⟨0, 0⟩⟩ 1 3).res = .ok (some 4) ∧
    (memoCallObj defaultCfg szConst8 szTupConst5 funcAdd 0 0
      (memoCallObj defaultCfg szConst8 szTupConst5 funcAdd 0 0 ⟨[], ⟨0, 0⟩⟩ 1 3).state 2 3).res
      = .ok (some 5) :=
  per_owner_isolated_caches_shared_stats szConst8 szTupConst5 funcAdd 0 0 0 0
    ⟨0, 0⟩ 1 2 3 (some 4) (some 5) (by decide) rfl rfl

/-- C10: the bulk clear (`MemoizeResults.clear`) empties only the caches held
in the process-wide registry; a cache attached to an owner instance by an
`obj = True` memoized computation is untouched, so its cached values survive
the bulk clear -- a subsequent call through that owner is still a hit that
does not invoke the computation and returns the surviving stored value. -/
theorem bulk_clear_spares_owner_caches (w : World) (szV : V → Int)
    (szT : Nat → V → Int) (func : Nat → Nat → Except Unit V) (e n o a : Nat)
    (cOwn : Cache (Nat × Nat)) (exp : Nat) (v : V)
    (hc : getOwnerCache w.objState.owners o = some cOwn)
    (hl : lookup cOwn.entries (o, a) = some (exp, v)) :
    (clearAll w).objState = w.objState ∧
    (∀ rc ∈ (clearAll w).registry, rc.entries = []) ∧
    (memoCallObj defaultCfg szV szT func e n (clearAll w).objState o a).invoked = false ∧
    (memoCallObj defaultCfg szV szT func e n (clearAll w).objState o a).res = .ok v := by
  have hcall : memoCallObj defaultCfg szV szT func e n w.objState o a
      = ⟨.ok v, ⟨setOwnerCache w.objState.owners o cOwn,
         ⟨w.objState.stats.call + 1, w.objState.stats.miss⟩⟩, false⟩ := by
    unfold memoCallObj
    simp only [hc, Option.getD_some]
    rw [getitem_no_until_some szV szT n (show defaultCfg.hasUntil = false from rfl) hl]
  refine ⟨rfl, ?_, ?_, ?_⟩
  · intro rc hrc
    unfold clearAll at hrc
    simp only [List.mem_map] at hrc
    obtain ⟨pre, _, heq⟩ := hrc
    rw [← heq]
    rfl
  · show (memoCallObj defaultCfg szV szT func e n w.objState o a).invoked = false
    rw [hcall]
  · show (memoCallObj defaultCfg szV szT func e n w.objState o a).res = .ok v
    rw [hcall]

/-- C10 witness: the owner-attached entry of `exampleWorld` survives a bulk
clear while the registered cache is emptied. -/
theorem bulk_clear_spares_owner_caches_witness :
    (clearAll exampleWorld).objState = exampleWorld.objState ∧
    (∀ rc ∈ (clearAll exampleWorld).registry, rc.entries = []) ∧
    (memoCallObj defaultCfg szConst8 szTupConst5 funcAdd 0 0
      (clearAll exampleWorld).objState 5 7).invoked = false ∧
    (memoCallObj defaultCfg szConst8 szTupConst5 funcAdd 0 0
      (clearAll exampleWorld).objState 5 7).res = .ok (some 4) :=
  bulk_clear_spares_owner_caches exampleWorld szConst8 szTupConst5 funcAdd 0 0 5 7
    ⟨[((5, 7), 0, some 4)], 8⟩ 0 (some 4) (by decide) (by decide)

end PyUtil
